import Mathlib

/-!
Verification development for the CryptoExplorer derivation core.

The definitions below are a shallow embedding of the pure utility layer of
the repository:
* `src/utils/formatters.js` (the later revision in `src/unnamed/part_004`,
  lines 310-670): `formatTimestamp`, `formatNumber`, `formatFileSize`,
  `formatBtcAmount`, `truncateMiddle`, `identifyMiner`, `formatTimeAgo`,
  `calculateDifficulty`;
* `src/components/TransactionItem.jsx` (lines 16-98): the `useMemo`
  aggregation of `totalInput`, `totalOutput`, `fee`, `primaryToAddress`,
  `primaryFromAddress`.

JavaScript runtime conventions are made explicit:
* inputs that may be `null`, `undefined`, a number or a string are values of
  `JsPrim`; JS numbers are modelled as exact rationals (the claims under
  consideration never reach a float-rounding boundary, and `NaN` only arises
  here from string coercion, which is modelled by `Option`);
* a thrown `TypeError` (calling a missing method such as
  `Number.prototype.substring`) is `Except.error JsErr.typeError`;
* `BigInt` arithmetic is exact `Nat` arithmetic; `Number(bigint)` keeps the
  integer value (the conversion cannot produce `NaN`/`Infinity` for the
  quotients that occur, and the claims only need `0` versus positive);
* `parseInt(s, 16)` returning `NaN` is `Option.none`.  Values at or above
  `2^53` would lose precision in JS; no input considered here reaches that.
-/

set_option maxRecDepth 4000

/-- A JavaScript primitive input value: `null`, `undefined`, a number or a
string.  JS numbers are modelled as exact rationals. -/
inductive JsPrim where
  | null
  | undef
  | num (q : ℚ)
  | str (s : String)
deriving DecidableEq

/-- A JavaScript exception reaching the caller.  The only kind the embedded
code can raise is a `TypeError` from calling a method on a value that does
not have it. -/
inductive JsErr where
  | typeError
deriving DecidableEq

/-- JS falsiness for the primitives of `JsPrim` (`!v` in the source):
`null`, `undefined`, `0` and the empty string are falsy. -/
def jsFalsy : JsPrim → Bool
  | .null => true
  | .undef => true
  | .num q => q == 0
  | .str s => s == ""

/-- Value of one hexadecimal digit character, case-insensitive, as used by
`parseInt(-, 16)`. -/
def hexDigitVal? (c : Char) : Option ℕ :=
  if '0' ≤ c ∧ c ≤ '9' then some (c.toNat - 48)
  else if 'a' ≤ c ∧ c ≤ 'f' then some (c.toNat - 87)
  else if 'A' ≤ c ∧ c ≤ 'F' then some (c.toNat - 55)
  else none

/-- Accumulate the value of the longest prefix of hexadecimal digits, like
the digit loop of `parseInt(-, 16)`; parsing stops at the first non-digit. -/
def parseHexDigits : List Char → ℕ → ℕ
  | [], acc => acc
  | c :: cs, acc =>
    match hexDigitVal? c with
    | some d => parseHexDigits cs (acc * 16 + d)
    | none => acc

/-- The prefix-stripping step of `parseInt(s, 16)`: drop one leading `0x` or
`0X`. -/
def stripHexMark : List Char → List Char
  | '0' :: 'x' :: rest => rest
  | '0' :: 'X' :: rest => rest
  | cs => cs

/-- The digit-reading step of `parseInt(s, 16)`: `NaN` (`none`) unless at
least one leading hexadecimal digit is present. -/
def parseHexList : List Char → Option ℕ
  | [] => none
  | c :: cs => if (hexDigitVal? c).isSome then some (parseHexDigits (c :: cs) 0) else none

/-- `parseInt(s, 16)`: strip an optional `0x`/`0X` prefix, then read leading
hexadecimal digits; no leading digit means `NaN` (`none`).  Leading
whitespace and a sign never occur at the call sites modelled here. -/
def parseHexJs (s : String) : Option ℕ :=
  parseHexList (stripHexMark s.data)

/-- Lowercase hexadecimal digit character for a value below 16, as produced
by `Number.prototype.toString(16)`. -/
def hexDigitChar (d : ℕ) : Char :=
  if d < 10 then Char.ofNat (48 + d) else Char.ofNat (87 + d)

/-- Little-endian base-16 digits of a natural number; the fuel argument makes
the recursion structural (any fuel above the number suffices). -/
def natHexLEAux : ℕ → ℕ → List ℕ
  | 0, _ => []
  | fuel + 1, n => if n < 16 then [n] else n % 16 :: natHexLEAux fuel (n / 16)

/-- The characters of `n.toString(16)`: big-endian lowercase hex digits. -/
def natToHexChars (n : ℕ) : List Char :=
  ((natHexLEAux (n + 1) n).reverse).map hexDigitChar

/-- `String.prototype.padStart(len, c)` on a list of characters. -/
def padStartChars (cs : List Char) (len : ℕ) (c : Char) : List Char :=
  List.replicate (len - cs.length) c ++ cs

/-- ASCII lowercasing of one character, the effect of
`String.prototype.toLowerCase` on the ASCII data handled here. -/
def asciiLowerChar (c : Char) : Char :=
  if 'A' ≤ c ∧ c ≤ 'Z' then Char.ofNat (c.toNat + 32) else c

/-- `s.toLowerCase()` on ASCII strings. -/
def toLowerJs (s : String) : String :=
  String.mk (s.data.map asciiLowerChar)

/-- `needle` is a prefix of `hay` (character lists). -/
def takesStart : List Char → List Char → Bool
  | [], _ => true
  | _ :: _, [] => false
  | a :: as, b :: bs => a == b && takesStart as bs

/-- `hay.includes(needle)` on character lists (JS substring containment). -/
def containsSub : List Char → List Char → Bool
  | [], needle => takesStart needle []
  | h :: t, needle => takesStart needle (h :: t) || containsSub t needle

/-- Floor of a rational number as an integer (`Math.floor`). -/
def ratFloor (q : ℚ) : ℤ :=
  q.num.fdiv (q.den : ℤ)

/-- Truncation of a rational number toward zero (the `ToInteger` step JS
applies to a `Date` millisecond argument). -/
def ratTrunc (q : ℚ) : ℤ :=
  q.num.tdiv (q.den : ℤ)

/-- `Math.abs` on rationals. -/
def ratAbs (q : ℚ) : ℚ :=
  if q < 0 then -q else q

/-- The rational `10 ^ f`. -/
def pow10 (f : ℕ) : ℚ :=
  ((10 ^ f : ℕ) : ℚ)

/-- Is `c` a decimal digit? -/
def isDigitCh (c : Char) : Bool :=
  '0' ≤ c && c ≤ '9'

/-- Value of a list of decimal digit characters. -/
def digitsVal (ds : List Char) : ℕ :=
  ds.foldl (fun a c => a * 10 + (c.toNat - 48)) 0

/-- Body of JS `ToNumber` on a (sign-stripped) string: leading integer
digits, optionally a dot and fraction digits.  Exponent, hexadecimal and
infinity forms never reach the coercion sites modelled here. -/
def parseDecCore (cs : List Char) : Option ℚ :=
  let ip := cs.takeWhile isDigitCh
  let rest := cs.dropWhile isDigitCh
  match rest with
  | [] => if ip.isEmpty then none else some ((digitsVal ip : ℚ))
  | '.' :: fr =>
    if fr.all isDigitCh && !(ip.isEmpty && fr.isEmpty) then
      some ((digitsVal ip : ℚ) + (digitsVal fr : ℚ) / (10 : ℚ) ^ fr.length)
    else none
  | _ => none

/-- JS `ToNumber` of a string (`none` = `NaN`); the empty string coerces
to `0`. -/
def toNumberOpt (s : String) : Option ℚ :=
  match s.data with
  | [] => some 0
  | '-' :: rest => (parseDecCore rest).map (fun q => -q)
  | '+' :: rest => parseDecCore rest
  | cs => parseDecCore cs

/-- Drop trailing `'0'` characters (used for significant digits and for the
fractional part of the default locale rendering). -/
def trimRightZeros (ds : List Char) : List Char :=
  (ds.reverse.dropWhile (fun c => c == '0')).reverse

/-- ECMAScript `ToString` of a non-negative integer Number at or above
`10^21`, which renders in exponential notation: the significant digits `s`
with `10^(k-1) <= s < 10^k` and `s * 10^(n-k) = x` give
`d.ddd...e+<n-1>`. -/
def jsExpToString (x : ℕ) : String :=
  let ds := Nat.toDigits 10 x
  let sig := trimRightZeros ds
  let expo := ds.length - 1
  if sig.length = 1 then String.mk sig ++ "e+" ++ Nat.repr expo
  else String.mk (sig.take 1) ++ "." ++ String.mk (sig.drop 1) ++ "e+" ++ Nat.repr expo

/-- `Number.prototype.toFixed(f)` per the ECMAScript algorithm: extract the
sign; a magnitude at or above `10^21` falls back to plain `ToString`
(exponential notation — every double of that magnitude is an integer, so
taking the floor is the identity on reachable inputs); otherwise round the
magnitude half-up at `f` decimal places, pad the digit string to at least
`f + 1` characters, and insert the decimal point.  The `NaN`/`Infinity`
returns of the ECMAScript algorithm have no `ℚ` representative; the one
call site that can meet `NaN` (string coercion) models it separately. -/
def jsToFixed (x : ℚ) (f : ℕ) : String :=
  let sgn : List Char := if x < 0 then ['-'] else []
  if pow10 21 ≤ ratAbs x then String.mk sgn ++ jsExpToString (ratFloor (ratAbs x)).toNat
  else
    let n : ℕ := (ratFloor (ratAbs x * pow10 f + 1 / 2)).toNat
    let m : List Char := Nat.toDigits 10 n
    let m : List Char :=
      if m.length ≤ f then List.replicate (f + 1 - m.length) '0' ++ m else m
    if f = 0 then String.mk (sgn ++ m)
    else String.mk (sgn ++ m.take (m.length - f) ++ '.' :: m.drop (m.length - f))

/-- Thousands grouping over reversed digit characters: a comma after every
third digit (counting from the right). -/
def groupRevAux : List Char → ℕ → List Char
  | [], _ => []
  | c :: cs, k =>
    if k ≠ 0 ∧ k % 3 = 0 then ',' :: c :: groupRevAux cs (k + 1)
    else c :: groupRevAux cs (k + 1)

/-- Insert en-US thousands separators into a big-endian digit string. -/
def groupDigits (ds : List Char) : List Char :=
  (groupRevAux ds.reverse 0).reverse

/-- `Number.prototype.toLocaleString()` under the default en-US locale:
round half-up to at most three fraction digits, group the integer part in
threes, and drop trailing fractional zeros. -/
def formatNumberStr (q : ℚ) : String :=
  let sgn : List Char := if q < 0 then ['-'] else []
  let n : ℕ := (ratFloor (ratAbs q * 1000 + 1 / 2)).toNat
  let ipart := n / 1000
  let frac := trimRightZeros (padStartChars (Nat.toDigits 10 (n % 1000)) 3 '0')
  let ipChars := groupDigits (Nat.toDigits 10 ipart)
  if frac = [] then String.mk (sgn ++ ipChars)
  else String.mk (sgn ++ ipChars ++ '.' :: frac)

/-- Gregorian date (year, month 1..12, day 1..31) of a day count relative to
1970-01-01, the civil-from-days algorithm used to model the date component
getters of a JS `Date`. -/
def civilFromDays (z0 : ℤ) : ℤ × ℤ × ℤ :=
  let z := z0 + 719468
  let era := z.fdiv 146097
  let doe := (z.fmod 146097).toNat
  let yoe := (doe - doe / 1460 + doe / 36524 - doe / 146096) / 365
  let y := (yoe : ℤ) + era * 400
  let doy := doe - (365 * yoe + yoe / 4 - yoe / 100)
  let mp := (5 * doy + 2) / 153
  let d := doy - (153 * mp + 2) / 5 + 1
  let m : ℤ := if mp < 10 then (mp : ℤ) + 3 else (mp : ℤ) - 9
  (if m ≤ 2 then y + 1 else y, m, (d : ℤ))

/-- `String(n).padStart(2, '0')` for the non-negative date components. -/
def pad2 (n : ℤ) : String :=
  let s := toString n
  if s.length < 2 then "0" ++ s else s

/-- Date rendering of `formatTimestamp` for a numeric timestamp: build the
millisecond value (truncated, range-clipped as by `TimeClip`), shift by the
local timezone offset, and format `YYYY-MM-DD HH:MM`. -/
def formatTsNum (tzOffsetSec : ℤ) (q : ℚ) : String :=
  let ms := ratTrunc (q * 1000)
  if 8640000000000000 < ms.natAbs then "NaN-NaN-NaN NaN:NaN"
  else
    let localMs := ms + tzOffsetSec * 1000
    let days := localMs.fdiv 86400000
    let msod := localMs.fmod 86400000
    let ymd := civilFromDays days
    let h := msod.fdiv 3600000
    let mi := (msod.fdiv 60000).fmod 60
    toString ymd.1 ++ "-" ++ pad2 ymd.2.1 ++ "-" ++ pad2 ymd.2.2 ++ " " ++
      pad2 h ++ ":" ++ pad2 mi

/-- `formatTimestamp(timestamp)`: falsy input gives `"Unknown"`; otherwise
the timestamp (seconds) is rendered as a local `YYYY-MM-DD HH:MM` string.
The local timezone offset of the running process is passed explicitly.  A
non-numeric string coerces to `NaN`, whose `Date` renders every component as
`NaN`.  The function never throws. -/
def formatTimestamp (tzOffsetSec : ℤ) : JsPrim → Except JsErr String
  | .null => .ok "Unknown"
  | .undef => .ok "Unknown"
  | .num q => .ok (if q = 0 then "Unknown" else formatTsNum tzOffsetSec q)
  | .str s =>
    .ok (if s = "" then "Unknown"
      else
        match toNumberOpt s with
        | some q => formatTsNum tzOffsetSec q
        | none => "NaN-NaN-NaN NaN:NaN")

/-- `formatNumber(number)`: only `undefined`/`null` give the sentinel; any
number is rendered via `toLocaleString`, and a string input falls back to
`Object.prototype.toLocaleString`, i.e. the string itself.  Never throws. -/
def formatNumber : JsPrim → Except JsErr String
  | .null => .ok "Unknown"
  | .undef => .ok "Unknown"
  | .num q => .ok (formatNumberStr q)
  | .str s => .ok s

/-- The unit labels of `formatFileSize`. -/
def fileSizeUnits : List String :=
  ["B", "KB", "MB", "GB"]

/-- The `while (size >= 1024 && unitIndex < units.length - 1)` loop of
`formatFileSize`; the fuel equals the remaining admissible increments of
`unitIndex`. -/
def fsLoop : ℕ → ℚ → ℕ → ℚ × ℕ
  | 0, q, idx => (q, idx)
  | fuel + 1, q, idx =>
    if 1024 ≤ q then fsLoop fuel (q / 1024) (idx + 1) else (q, idx)

/-- `formatFileSize` on an actual number. -/
def formatFileSizeNum (q : ℚ) : String :=
  let si := fsLoop 3 q 0
  jsToFixed si.1 (if 0 < si.2 then 2 else 0) ++ " " ++ fileSizeUnits.getD si.2 ""

/-- `formatFileSize(bytes)`: `undefined`/`null` give the sentinel; a number
is scaled and rendered.  A string survives only when its numeric coercion is
at least 1024 (the loop comparison coerces, and the division then yields a
number); otherwise the final `size.toFixed(...)` call throws a `TypeError`
because strings have no `toFixed` method. -/
def formatFileSize : JsPrim → Except JsErr String
  | .null => .ok "Unknown"
  | .undef => .ok "Unknown"
  | .num q => .ok (formatFileSizeNum q)
  | .str s =>
    match toNumberOpt s with
    | some q =>
      if 1024 ≤ q then
        .ok
          (let si := fsLoop 2 (q / 1024) 1
           jsToFixed si.1 2 ++ " " ++ fileSizeUnits.getD si.2 "")
      else .error .typeError
    | none => .error .typeError

/-- `formatBtcAmount(satoshis)`: `undefined`/`null` give the sentinel;
otherwise divide by 100,000,000 and render with `toFixed(8)` plus a
`" BTC"` suffix.  A non-numeric string divides to `NaN`, and
`NaN.toFixed(8)` is the string `"NaN"`; no input throws. -/
def formatBtcAmount : JsPrim → Except JsErr String
  | .null => .ok "Unknown"
  | .undef => .ok "Unknown"
  | .num q => .ok (jsToFixed (q / 100000000) 8 ++ " BTC")
  | .str s =>
    .ok
      (match toNumberOpt s with
       | some q => jsToFixed (q / 100000000) 8 ++ " BTC"
       | none => "NaN BTC")

/-- `truncateMiddle(str, startChars, endChars)`: falsy input gives `""`; a
string within the limit is returned unchanged, otherwise the two ends are
joined with an ellipsis.  A truthy non-string input (a non-zero number)
passes the falsiness guard, fails the `length` comparison (`undefined <= n`
is false) and then throws a `TypeError` on `str.substring`. -/
def truncateMiddle (str : JsPrim) (startChars : ℕ := 6) (endChars : ℕ := 6) :
    Except JsErr String :=
  match str with
  | .null => .ok ""
  | .undef => .ok ""
  | .num q => if q = 0 then .ok "" else .error .typeError
  | .str s =>
    .ok
      (if s = "" then ""
       else if s.length ≤ startChars + endChars then s
       else s.take startChars ++ "..." ++ s.drop (s.length - endChars))

/-- The interval table of `formatTimeAgo`. -/
def timeAgoIntervals : List (String × ℕ) :=
  [("year", 31536000), ("month", 2592000), ("week", 604800), ("day", 86400),
   ("hour", 3600), ("minute", 60), ("second", 1)]

/-- The interval scan of `formatTimeAgo`: the first interval with a positive
floor count produces the rendered string. -/
def timeAgoScan : List (String × ℕ) → ℚ → Option String
  | [], _ => none
  | (label, secs) :: rest, ago =>
    let count := ratFloor (ago / (secs : ℚ))
    if 0 < count then
      some (toString count ++ " " ++ label ++ (if 1 < count then "s" else "") ++ " ago")
    else timeAgoScan rest ago

/-- `formatTimeAgo(timestamp)`: falsy input gives `"Unknown"`; otherwise the
elapsed seconds against the (explicitly passed) current clock select the
largest applicable unit, falling through to `"Just now"`.  A non-numeric
string makes the elapsed value `NaN`, every count comparison false, and the
result `"Just now"`; no input throws. -/
def formatTimeAgo (now : ℤ) : JsPrim → Except JsErr String
  | .null => .ok "Unknown"
  | .undef => .ok "Unknown"
  | .num q =>
    .ok (if q = 0 then "Unknown"
      else (timeAgoScan timeAgoIntervals ((now : ℚ) - q)).getD "Just now")
  | .str s =>
    .ok (if s = "" then "Unknown"
      else
        match toNumberOpt s with
        | some q => (timeAgoScan timeAgoIntervals ((now : ℚ) - q)).getD "Just now"
        | none => "Just now")

/-! ## DifficultyCalculator (`calculateDifficulty`, formatters.js lines 569-670) -/

/-- A value found in a `bits`-carrying field of a block object: the upstream
APIs supply either a number or a hex string. -/
inductive BitsField where
  | num (n : ℕ)
  | str (s : String)
deriving DecidableEq

/-- Input universe of `calculateDifficulty`: `null`/`undefined`, a primitive
number or string, or a block object with the three recognised bits fields
(`bits`, `bits_hex`, `nBits`), each possibly absent. -/
inductive BlockInput where
  | null
  | num (n : ℕ)
  | str (s : String)
  | obj (bits bits_hex nBits : Option BitsField)
deriving DecidableEq

/-- JS truthiness applied to an optional field value (`0` and `""` are
falsy). -/
def truthyBits : Option BitsField → Option BitsField
  | some (.num n) => if n = 0 then none else some (.num n)
  | some (.str s) => if s = "" then none else some (.str s)
  | none => none

/-- Field resolution `blockData.bits || blockData.bits_hex || blockData.nBits`
(the intermediate `prev_block ? blockData.bits : null` ternary of the source
re-reads an already-falsy `bits` and cannot change the outcome). -/
def resolveBits (b1 b2 b3 : Option BitsField) : Option BitsField :=
  match truthyBits b1 with
  | some v => some v
  | none =>
    match truthyBits b2 with
    | some v => some v
    | none => truthyBits b3

/-- `bitsVal >> 24` under JS semantics: `ToInt32` (wrap modulo `2^32`,
reinterpret the high bit as sign) followed by an arithmetic shift, i.e. the
high byte, minus 256 when the 32-bit value is negative. -/
def jsExponent (bitsVal : ℕ) : ℤ :=
  if bitsVal % 2 ^ 32 < 2 ^ 31 then ((bitsVal % 2 ^ 32 / 2 ^ 24 : ℕ) : ℤ)
  else ((bitsVal % 2 ^ 32 / 2 ^ 24 : ℕ) : ℤ) - 256

/-- `bitsVal & 0x00FFFFFF` under JS semantics (`ToInt32` then mask): the low
24 bits. -/
def jsMantissa (bitsVal : ℕ) : ℕ :=
  bitsVal % 2 ^ 32 % 2 ^ 24

/-- The compact target: `BigInt(mantissa)` shifted right by
`8 * (3 - exponent)` when `exponent <= 3`, otherwise left by
`8 * (exponent - 3)`. -/
def jsTarget (bitsVal : ℕ) : ℕ :=
  if jsExponent bitsVal ≤ 3 then
    jsMantissa bitsVal >>> (8 * (3 - jsExponent bitsVal)).toNat
  else jsMantissa bitsVal <<< (8 * (jsExponent bitsVal - 3)).toNat

/-- The difficulty-1 maximum target `BigInt(0xFFFF) << BigInt(208)`. -/
def jsMaxTarget : ℕ :=
  0xFFFF <<< 208

/-- The arithmetic core of `calculateDifficulty` once `bitsHex` has parsed to
`bitsVal`: zero mantissa or exponent gives 0; the literal genesis string
`"0x1d00ffff"` short-circuits to 1; otherwise the truncating `BigInt`
quotient `maxTarget / target` (0 when the target is 0). -/
def difficultyFromBitsVal (bitsHex : String) (bitsVal : ℕ) : ℕ :=
  if jsMantissa bitsVal = 0 ∨ jsExponent bitsVal = 0 then 0
  else if bitsHex = "0x1d00ffff" then 1
  else if jsTarget bitsVal = 0 then 0 else jsMaxTarget / jsTarget bitsVal

/-- `parseInt(bitsHex, 16)` followed by the arithmetic core; `NaN` gives 0. -/
def difficultyFromHex (bitsHex : String) : ℕ :=
  match parseHexJs bitsHex with
  | none => 0
  | some bitsVal => difficultyFromBitsVal bitsHex bitsVal

/-- Normalisation of the resolved bits value to a `bitsHex` string: a string
keeps or gains a `0x` prefix; a number becomes
`'0x' + bits.toString(16).padStart(8, '0')`. -/
def difficultyFromBits : BitsField → ℕ
  | .num n => difficultyFromHex ("0x" ++ String.mk (padStartChars (natToHexChars n) 8 '0'))
  | .str s => difficultyFromHex (if takesStart ['0', 'x'] s.data then s else "0x" ++ s)

/-- `calculateDifficulty(blockData)`: `null`/`undefined` give 0; an object
resolves its bits field (0 when none is usable); a primitive is the bits
value itself.  Every internal failure path of the source (unparsable hex,
zero guards) already returns 0, so the surrounding `try`/`catch` never fires
for these inputs and the function is total. -/
def calculateDifficulty : BlockInput → ℕ
  | .null => 0
  | .obj b1 b2 b3 =>
    match resolveBits b1 b2 b3 with
    | some bf => difficultyFromBits bf
    | none => 0
  | .num n => difficultyFromBits (.num n)
  | .str s => difficultyFromBits (.str s)

/-! ## MinerIdentifier (`identifyMiner`, formatters.js lines 391-530) -/

/-- The static ASCII signature table (`minerSignatures`), in source insertion
order (the order `Object.entries` iterates). -/
def minerSignatures : List (String × List String) :=
  [("Foundry USA", ["Foundry USA", "/Foundry/", "foundry.com"]),
   ("F2Pool", ["F2Pool", "/F2Pool/", "f2pool.com"]),
   ("AntPool", ["AntPool", "/AntPool/", "antpool.com"]),
   ("Binance Pool", ["Binance Pool", "/Binance/", "binancepool", "binance.com"]),
   ("ViaBTC", ["ViaBTC", "/ViaBTC/", "viabtc.com"]),
   ("SlushPool", ["SlushPool", "slushpool.com", "braiins.com", "/slush/"]),
   ("Poolin", ["Poolin", "/Poolin/", "poolin.com"]),
   ("BTC.com", ["BTC.com", "/BTC.com/", "btc.com"]),
   ("OKExPool", ["OKExPool", "okexpool", "okex.com"]),
   ("1THash", ["1THash", "1thash.com"]),
   ("Huobi Pool", ["Huobi", "huobipool", "huobi.com"]),
   ("NovaBlock", ["NovaBlock", "novablock"]),
   ("MARA Pool", ["MARA", "Marathon", "marapool"]),
   ("SBI Crypto", ["SBI Crypto", "sbicrypto"]),
   ("Luxor", ["Luxor", "luxor.tech"]),
   ("Bitdeer", ["Bitdeer", "bitdeer.com"]),
   ("KuCoin Pool", ["KuCoin", "kucoin.com"]),
   ("SigmaPool", ["SigmaPool", "sigmapool.com"]),
   ("SpiderPool", ["SpiderPool", "spider"])]

/-- The static payout-address table (`minerAddresses`). -/
def minerAddresses : List (String × String) :=
  [("1KFHE7w8BhaENAswwryaoccDb6qcT6DbYY", "Foundry USA"),
   ("12hRMvP7LKrSC2L9t6JrdgXhj1uVhP7gzh", "F2Pool"),
   ("1CdCUXGx9kvx2uXAQKMiR6mBYAqkrNr3HU", "AntPool"),
   ("1PMHA4kRwHGEPFjm3RvYUYvJZ1AEqLXurH", "Binance Pool"),
   ("1JwUDjDDQ3FqGRMaNZhB7U44Jg8KFQTvNG", "ViaBTC"),
   ("1CK6KHY6MHgYvmRQ4PAafKYDrg1ejbH1cE", "SlushPool"),
   ("13hQVEstgo4iPQZv9C7VELnLWF7UWtF4Q3", "Poolin"),
   ("1Hz96kJKF2HLPGY15JWLB5m9qGNxvt8tHJ", "BTC.com"),
   ("1JLRXD8rjRgQtTS9MvfQALfHgGWau9L9ky", "BTC.com"),
   ("1GC6HxDvnchDdb5cGkFXsJMZBFRsVMGSXs", "OKExPool"),
   ("1M9iaetiEZZTfmRqWJQfQQ7ERmyLXZh1zz", "Huobi Pool"),
   ("1Bf9sZvBHPFGVPX71WX2njhd1NXKv5y7v5", "SBI Crypto"),
   ("1G8YpbkZd7bySHjpdQbgeyL1gEW9HjuAwt", "Luxor"),
   ("1MiningRigSGkAZYkbNpsCLYKhRNYKqqTuX", "MARA Pool"),
   ("1KsFhYKLs8qb1GHqrPxHoywNQpet2CtP9t", "Binance Pool")]

/-- The static ordered hex-pattern list (`minerHexPatterns`), pairs of
(hex substring, pool name). -/
def minerHexPatterns : List (String × String) :=
  [("466f756e647279", "Foundry USA"),
   ("4632506f6f6c", "F2Pool"),
   ("416e74506f6f6c", "AntPool"),
   ("42696e616e6365", "Binance Pool"),
   ("5669614254432f", "ViaBTC"),
   ("536c757368506f6f6c", "SlushPool"),
   ("506f6f6c696e", "Poolin"),
   ("2f4254432e636f6d2f", "BTC.com"),
   ("2f426974446565722f", "Bitdeer"),
   ("2f4c75786f722f", "Luxor"),
   ("2f42544343454e5452414c2f", "BTCC"),
   ("6d6172617468", "MARA Pool"),
   ("4b75636f696e", "KuCoin Pool"),
   ("7370696465", "SpiderPool"),
   ("2f466f756e6472792f", "Foundry USA"),
   ("2f4632506f6f6c2f", "F2Pool"),
   ("2f416e74506f6f6c2f", "AntPool"),
   ("2f42696e616e63652f", "Binance Pool")]

/-- `parseInt(hexByte, 16)` for one `substr(i, 2)` slice of the coinbase hex
(one or two characters): `none` when the first character is not a hex digit. -/
def pairCode (c1 : Char) (c2? : Option Char) : Option ℕ :=
  match hexDigitVal? c1 with
  | none => none
  | some d1 =>
    match c2? with
    | none => some d1
    | some c2 =>
      match hexDigitVal? c2 with
      | some d2 => some (16 * d1 + d2)
      | none => some d1

/-- The ASCII-decoding loop of `identifyMiner`: bytes in the printable range
[32, 126] are kept, everything else (including unparsable pairs) is
skipped. -/
def asciiDecode : List Char → List Char
  | [] => []
  | [c] =>
    match pairCode c none with
    | some v => if 32 ≤ v ∧ v ≤ 126 then [Char.ofNat v] else []
    | none => []
  | c1 :: c2 :: rest =>
    (match pairCode c1 (some c2) with
     | some v => if 32 ≤ v ∧ v ≤ 126 then [Char.ofNat v] else []
     | none => []) ++ asciiDecode rest

/-- The hex-pattern scan: first entry whose (lowercased) pattern is contained
in the lowercased coinbase hex wins. -/
def scanHexPatterns : List (String × String) → String → Option String
  | [], _ => none
  | (pat, nm) :: rest, lower =>
    if containsSub lower.data (toLowerJs pat).data then some nm
    else scanHexPatterns rest lower

/-- Does any signature of one pool entry occur in the decoded ASCII text? -/
def sigMatch : List String → String → Bool
  | [], _ => false
  | sig :: rest, ascii => containsSub ascii.data (toLowerJs sig).data || sigMatch rest ascii

/-- The ASCII-signature scan over `Object.entries(minerSignatures)`: first
entry with a matching signature wins. -/
def scanSignatures : List (String × List String) → String → Option String
  | [], _ => none
  | (nm, sigs) :: rest, ascii =>
    if sigMatch sigs ascii then some nm else scanSignatures rest ascii

/-- Object key lookup `minerAddresses[addr]` (keys are distinct, so list
order is irrelevant). -/
def addrLookup : List (String × String) → String → Option String
  | [], _ => none
  | (a, nm) :: rest, addr => if a = addr then some nm else addrLookup rest addr

/-- An output of the (first) transaction of the raw block data, as far as
`identifyMiner` reads it. -/
structure MinerOut where
  addr : Option String
deriving DecidableEq

/-- A transaction of the raw block data, as far as `identifyMiner` reads
it. -/
structure MinerTx where
  out : Option (List MinerOut)
deriving DecidableEq

/-- The raw block data argument of `identifyMiner`. -/
structure RawBlock where
  tx : Option (List MinerTx)
deriving DecidableEq

/-- The output loop of APPROACH 2: the first output with a truthy address
that is a key of `minerAddresses` wins. -/
def outsScan : List MinerOut → Option String
  | [] => none
  | o :: rest =>
    match o.addr with
    | some a =>
      if a ≠ "" then
        match addrLookup minerAddresses a with
        | some nm => some nm
        | none => outsScan rest
      else outsScan rest
    | none => outsScan rest

/-- APPROACH 2 of `identifyMiner`: the first transaction of a non-empty `tx`
array is the coinbase transaction; scan its outputs against the address
table. -/
def addressPass : Option RawBlock → Option String
  | none => none
  | some rb =>
    match rb.tx with
    | some (t :: _) =>
      match t.out with
      | some (o :: os) => outsScan (o :: os)
      | _ => none
    | _ => none

/-- APPROACH 1 of `identifyMiner` (runs only for a truthy string): lowercase
the hex, try the hex patterns, then decode printable ASCII and try the
signature table. -/
def coinbasePass : JsPrim → Option String
  | .str s =>
    if s == "" then none
    else
      match scanHexPatterns minerHexPatterns (toLowerJs s) with
      | some nm => some nm
      | none =>
        let ascii := String.mk (asciiDecode (toLowerJs s).data)
        if ascii == "" then none else scanSignatures minerSignatures (toLowerJs ascii)
  | _ => none

/-- APPROACH 3 of `identifyMiner`: a truthy string containing `"706f6f6c"`
(the hex of "pool") gives the generic label. -/
def genericPoolPass : JsPrim → String
  | .str s =>
    if s != "" && containsSub (toLowerJs s).data ("706f6f6c".data) then "Mining Pool"
    else "Unknown Miner"
  | _ => "Unknown Miner"

/-- `identifyMiner(coinbaseData, rawBlockData)`: early `"Unknown Miner"`
when both arguments are falsy; otherwise the three passes in order, with
`"Unknown Miner"` as the final fallback.  Every lookup failure inside a pass
falls through to the next pass; no input throws (the source also wraps the
passes in `try`/`catch`). -/
def identifyMiner (coinbaseData : JsPrim) (rawBlockData : Option RawBlock) : String :=
  if jsFalsy coinbaseData && rawBlockData.isNone then "Unknown Miner"
  else
    match coinbasePass coinbaseData with
    | some nm => nm
    | none =>
      match addressPass rawBlockData with
      | some nm => nm
      | none => genericPoolPass coinbaseData

/-- The closed set of strings `identifyMiner` can produce: the pool names of
its three static tables plus the two sentinels. -/
def allowedMinerNames : List String :=
  minerHexPatterns.map Prod.snd ++ minerSignatures.map Prod.fst ++
    minerAddresses.map Prod.snd ++ ["Mining Pool", "Unknown Miner"]

/-! ## TransactionAggregator (`TransactionItem.jsx` lines 16-98) -/

/-- The `prev_out` object of a transaction input (blockchain.info raw
shape). -/
structure PrevOut where
  addr : Option String
  value : Option ℤ
deriving DecidableEq

/-- A transaction input: optional previous output, optional coinbase
marker. -/
structure TxIn where
  prev_out : Option PrevOut
  coinbase : Option String
deriving DecidableEq

/-- A transaction output in either upstream shape. -/
structure TxOut where
  addr : Option String
  script : Option String
  value : Option ℤ
deriving DecidableEq

/-- The transaction object, as far as the aggregation reads it: an optional
explicit `fee`, the `is_coinbase` flag, and the `inputs` / `out` / `outputs`
arrays (absent field = `none`, present array = `some`). -/
structure Tx where
  fee : Option ℤ
  is_coinbase : Bool
  inputs : Option (List TxIn)
  out : Option (List TxOut)
  outputs : Option (List TxOut)
deriving DecidableEq

/-- An address with an amount, as reported for the primary sender and
recipient. -/
structure Payee where
  addr : String
  value : ℤ
deriving DecidableEq

/-- The aggregation result of the `useMemo` block. -/
structure AggResult where
  totalInput : ℤ
  totalOutput : ℤ
  fee : ℤ
  primaryTo : Payee
  primaryFrom : Payee
deriving DecidableEq

/-- `totalInput`: sum of `input.prev_out?.value || 0` over `inputs` when it
is an array, else 0. -/
def totalInputOf (t : Tx) : ℤ :=
  match t.inputs with
  | some l =>
    l.foldl
      (fun sum i =>
        sum + (match i.prev_out with
               | some p => p.value.getD 0
               | none => 0))
      0
  | none => 0

/-- `totalOutput`: sum of `output.value || 0` over `out` when it is an array
(even an empty one), falling back to `outputs`, else 0. -/
def totalOutputOf (t : Tx) : ℤ :=
  match t.out with
  | some l => l.foldl (fun sum o => sum + o.value.getD 0) 0
  | none =>
    match t.outputs with
    | some l => l.foldl (fun sum o => sum + o.value.getD 0) 0
    | none => 0

/-- `fee = transaction.fee || (totalInput > 0 ? totalInput - totalOutput : 0)`:
a truthy (non-zero, present) explicit fee always wins; otherwise the
difference is used whenever `totalInput` is positive, with no clamping of
negative results. -/
def feeOf (t : Tx) : ℤ :=
  let fallback :=
    if 0 < totalInputOf t then totalInputOf t - totalOutputOf t else 0
  match t.fee with
  | some f => if f ≠ 0 then f else fallback
  | none => fallback

/-- The coinbase test: the explicit `is_coinbase` flag, or a first input that
carries a truthy `coinbase` marker or lacks a `prev_out` reference. -/
def isCoinbaseTx (t : Tx) : Bool :=
  t.is_coinbase ||
    (match t.inputs with
     | some (i :: _) =>
       (match i.coinbase with
        | some c => c ≠ ""
        | none => false) || i.prev_out.isNone
     | _ => false)

/-- `primaryToAddress`: the first `out` entry by truthy `addr`, else
`"Script Output"` for a truthy `script`, else the default; the `outputs`
shape falls back to `addr || 'Unknown Address'`. -/
def primaryToOf (t : Tx) : Payee :=
  match t.out with
  | some (o :: _) =>
    match o.addr with
    | some a =>
      if a ≠ "" then ⟨a, o.value.getD 0⟩
      else
        match o.script with
        | some sc => if sc ≠ "" then ⟨"Script Output", o.value.getD 0⟩ else ⟨"Unknown Address", 0⟩
        | none => ⟨"Unknown Address", 0⟩
    | none =>
      match o.script with
      | some sc => if sc ≠ "" then ⟨"Script Output", o.value.getD 0⟩ else ⟨"Unknown Address", 0⟩
      | none => ⟨"Unknown Address", 0⟩
  | _ =>
    match t.outputs with
    | some (o :: _) =>
      ⟨(match o.addr with
        | some a => if a ≠ "" then a else "Unknown Address"
        | none => "Unknown Address"), o.value.getD 0⟩
    | _ => ⟨"Unknown Address", 0⟩

/-- `primaryFromAddress`: the coinbase label (valued at `totalOutput`) for a
coinbase transaction, else the first input with a truthy `prev_out.addr`,
else the default. -/
def primaryFromOf (t : Tx) : Payee :=
  if isCoinbaseTx t then ⟨"Coinbase (Newly Generated Coins)", totalOutputOf t⟩
  else
    match t.inputs with
    | some (i :: _) =>
      match i.prev_out with
      | some p =>
        match p.addr with
        | some a => if a ≠ "" then ⟨a, p.value.getD 0⟩ else ⟨"Unknown Address", 0⟩
        | none => ⟨"Unknown Address", 0⟩
      | none => ⟨"Unknown Address", 0⟩
    | _ => ⟨"Unknown Address", 0⟩

/-- The complete aggregation of the `useMemo` block of `TransactionItem`. -/
def aggregate (t : Tx) : AggResult :=
  ⟨totalInputOf t, totalOutputOf t, feeOf t, primaryToOf t, primaryFromOf t⟩

/-! ## Infrastructure for the theorems -/

attribute [local semireducible] Rat.add Rat.mul Rat.inv Rat.sub Rat.ofScientific

instance : DecidableEq (Except JsErr String) :=
  fun a b =>
    match a, b with
    | .ok x, .ok y => decidable_of_iff (x = y) (by simp)
    | .error x, .error y => decidable_of_iff (x = y) (by simp)
    | .ok _, .error _ => isFalse (by simp)
    | .error _, .ok _ => isFalse (by simp)

theorem natHexLEAux_foldr (fuel : ℕ) :
    ∀ n, n < fuel →
      List.foldr (fun d a => a * 16 + d) 0 (natHexLEAux fuel n) = n := by
  induction fuel with
  | zero => intro n hn; omega
  | succ fuel ih =>
    intro n hn
    unfold natHexLEAux
    by_cases h16 : n < 16
    · simp [h16]
    · have hpos : 0 < n := by omega
      have hdiv : n / 16 < n := Nat.div_lt_self hpos (by omega)
      have hfuel : n / 16 < fuel := by omega
      simp only [h16, if_false, List.foldr_cons]
      rw [ih (n / 16) hfuel]
      omega

theorem natHexLEAux_lt (fuel : ℕ) :
    ∀ n d, d ∈ natHexLEAux fuel n → d < 16 := by
  induction fuel with
  | zero => intro n d hd; simp [natHexLEAux] at hd
  | succ fuel ih =>
    intro n d hd
    unfold natHexLEAux at hd
    by_cases h16 : n < 16
    · simp [h16] at hd; omega
    · simp only [h16, if_false, List.mem_cons] at hd
      rcases hd with h | h
      · subst h; exact Nat.mod_lt _ (by omega)
      · exact ih _ _ h

theorem natHexLEAux_ne_nil (fuel n : ℕ) : natHexLEAux (fuel + 1) n ≠ [] := by
  unfold natHexLEAux
  by_cases h16 : n < 16 <;> simp [h16]

theorem hexDigitVal?_hexDigitChar (d : ℕ) (hd : d < 16) :
    hexDigitVal? (hexDigitChar d) = some d := by
  interval_cases d <;> decide

theorem parseHexDigits_map (ds : List ℕ) :
    ∀ acc, (∀ d ∈ ds, d < 16) →
      parseHexDigits (ds.map hexDigitChar) acc =
        ds.foldl (fun a d => a * 16 + d) acc := by
  induction ds with
  | nil => intro acc _; rfl
  | cons d ds ih =>
    intro acc hds
    have hd : d < 16 := hds d (by simp)
    simp only [List.map_cons, parseHexDigits, hexDigitVal?_hexDigitChar d hd,
      List.foldl_cons]
    exact ih _ (fun x hx => hds x (by simp [hx]))

theorem parseHexDigits_zeros (k : ℕ) :
    ∀ cs, parseHexDigits (List.replicate k '0' ++ cs) 0 = parseHexDigits cs 0 := by
  induction k with
  | zero => intro cs; rfl
  | succ k ih =>
    intro cs
    have h0 : hexDigitVal? '0' = some 0 := by decide
    simp only [List.replicate_succ, List.cons_append, parseHexDigits, h0]
    exact ih cs

theorem parseHexList_zeros_digits (k : ℕ) (ds : List ℕ)
    (hds : ∀ d ∈ ds, d < 16) (hne : ds ≠ []) :
    parseHexList (List.replicate k '0' ++ ds.map hexDigitChar) =
      some (ds.foldl (fun a d => a * 16 + d) 0) := by
  cases k with
  | zero =>
    cases ds with
    | nil => exact absurd rfl hne
    | cons d ds' =>
      have hd : d < 16 := hds d (by simp)
      simp only [List.replicate, List.nil_append, List.map_cons, parseHexList,
        hexDigitVal?_hexDigitChar d hd, Option.isSome_some, if_true]
      rw [show (hexDigitChar d :: ds'.map hexDigitChar) = (d :: ds').map hexDigitChar from rfl]
      rw [parseHexDigits_map _ _ hds]
  | succ k =>
    have h0 : hexDigitVal? '0' = some 0 := by decide
    simp only [List.replicate_succ, List.cons_append, parseHexList, h0,
      Option.isSome_some, if_true, Option.some.injEq]
    have hstep : parseHexDigits ('0' :: (List.replicate k '0' ++ ds.map hexDigitChar)) 0 =
        parseHexDigits (List.replicate k '0' ++ ds.map hexDigitChar) (0 * 16 + 0) := by
      simp [parseHexDigits, h0]
    rw [hstep]
    norm_num
    rw [parseHexDigits_zeros k, parseHexDigits_map _ _ hds]

theorem parseHexJs_roundtrip (n : ℕ) :
    parseHexJs ("0x" ++ String.mk (padStartChars (natToHexChars n) 8 '0')) = some n := by
  have hdata : ("0x" ++ String.mk (padStartChars (natToHexChars n) 8 '0')).data =
      '0' :: 'x' :: padStartChars (natToHexChars n) 8 '0' := rfl
  have hstrip : stripHexMark ('0' :: 'x' :: padStartChars (natToHexChars n) 8 '0') =
      padStartChars (natToHexChars n) 8 '0' := rfl
  rw [parseHexJs, hdata, hstrip]
  unfold padStartChars natToHexChars
  set ds := (natHexLEAux (n + 1) n).reverse with hds
  have hlt : ∀ d ∈ ds, d < 16 := by
    intro d hd
    rw [hds, List.mem_reverse] at hd
    exact natHexLEAux_lt _ _ _ hd
  have hne : ds ≠ [] := by
    rw [hds]
    simp only [ne_eq, List.reverse_eq_nil_iff]
    exact natHexLEAux_ne_nil n n
  rw [show (ds.map hexDigitChar).length = ds.length from by simp]
  rw [parseHexList_zeros_digits _ _ hlt hne]
  rw [hds, List.foldl_reverse]
  rw [natHexLEAux_foldr (n + 1) n (by omega)]

theorem calculateDifficulty_num_eq (n : ℕ) :
    calculateDifficulty (.num n) =
      difficultyFromBitsVal
        ("0x" ++ String.mk (padStartChars (natToHexChars n) 8 '0')) n := by
  simp [calculateDifficulty, difficultyFromBits, difficultyFromHex,
    parseHexJs_roundtrip]

/-! ## Claim theorems: DifficultyCalculator -/

/-- C1 counterexample: `0x1dffffff = 503316479` is a valid 32-bit bits value
whose exponent byte (`0x1d`) and mantissa (`0xffffff`) are both non-zero,
yet `calculateDifficulty` returns `0` — the decoded target `0xffffff * 2^208`
exceeds the maximum target `0xffff * 2^208`, so the truncating `BigInt`
division yields `0`. -/
theorem c1_counterexample :
    calculateDifficulty (.num 503316479) = 0 ∧
      503316479 >>> 24 ≠ 0 ∧ 503316479 % 2 ^ 24 ≠ 0 ∧ 503316479 < 2 ^ 32 := by
  decide

/-- C1 (amended): for every valid 32-bit bits value with non-zero exponent
byte and non-zero mantissa, `calculateDifficulty` is positive exactly when
the decoded compact target is non-zero and does not exceed the difficulty-1
maximum target `0xFFFF * 2^208`; otherwise (target zero after the signed
32-bit shift, or target above the maximum so that the truncating division
gives 0) the result is `0`.  The result is always a well-defined natural
number, never an error value. -/
theorem c1_amended_positivity (n : ℕ) (h32 : n < 2 ^ 32) (hexp : n >>> 24 ≠ 0)
    (hmant : n % 2 ^ 24 ≠ 0) :
    0 < calculateDifficulty (.num n) ↔
      jsTarget n ≠ 0 ∧ jsTarget n ≤ jsMaxTarget := by
  rw [calculateDifficulty_num_eq]
  have hmod : n % 2 ^ 32 = n := Nat.mod_eq_of_lt h32
  have hmant' : jsMantissa n ≠ 0 := by
    unfold jsMantissa
    rw [hmod]
    exact hmant
  have hdiv : n / 2 ^ 24 ≠ 0 := by
    rwa [Nat.shiftRight_eq_div_pow] at hexp
  have hexp' : jsExponent n ≠ 0 := by
    unfold jsExponent
    rw [hmod]
    by_cases h31 : n < 2 ^ 31
    · simp only [h31, if_true]
      exact_mod_cast hdiv
    · simp only [h31, if_false]
      have h3 : n / 2 ^ 24 < 256 := by
        apply Nat.div_lt_of_lt_mul
        omega
      intro hc
      rw [sub_eq_zero] at hc
      have : (n / 2 ^ 24 : ℕ) = 256 := by exact_mod_cast hc
      omega
  unfold difficultyFromBitsVal
  rw [if_neg (by push_neg; exact ⟨hmant', hexp'⟩)]
  by_cases hg : ("0x" ++ String.mk (padStartChars (natToHexChars n) 8 '0')) = "0x1d00ffff"
  · have hp := parseHexJs_roundtrip n
    rw [hg] at hp
    have hp2 : parseHexJs "0x1d00ffff" = some 486604799 := by decide
    rw [hp2] at hp
    have hn : n = 486604799 := by
      injection hp with h
      omega
    subst hn
    rw [if_pos hg]
    constructor
    · intro _
      exact ⟨by decide, by decide⟩
    · intro _
      norm_num
  · rw [if_neg hg]
    by_cases ht : jsTarget n = 0
    · rw [if_pos ht]
      simp [ht]
    · rw [if_neg ht]
      constructor
      · intro h
        refine ⟨ht, ?_⟩
        by_contra hgt
        push_neg at hgt
        rw [Nat.div_eq_of_lt hgt] at h
        exact lt_irrefl 0 h
      · rintro ⟨-, hle⟩
        exact Nat.div_pos hle (Nat.pos_of_ne_zero ht)

/-- C1 witness: the amended positivity criterion applied at the concrete bits
value `0x04000001` (exponent byte 4, mantissa 1, target `256 <= maxTarget`)
shows a positive difficulty. -/
theorem c1_amended_positivity_witness :
    0 < calculateDifficulty (.num 67108865) :=
  (c1_amended_positivity 67108865 (by decide) (by decide) (by decide)).mpr
    ⟨by decide, by decide⟩

/-- C4: the genesis-block bits encoding `0x1d00ffff` — given as the number
`486604799`, as the hex string `"1d00ffff"`, or as the prefixed hex string
`"0x1d00ffff"` — yields difficulty exactly `1` (so certainly within `1e-6`
of `1.0`). -/
theorem c4_genesis_difficulty :
    calculateDifficulty (.num 486604799) = 1 ∧
      calculateDifficulty (.str "1d00ffff") = 1 ∧
      calculateDifficulty (.str "0x1d00ffff") = 1 := by
  decide

/-- C5: `calculateDifficulty` returns exactly `0` on the number `0`, on
`null`, on an object with no usable bits field (`{}`), and on the string
`"invalid"`; moreover on the whole modelled input universe it returns a
natural number (the embedding is total — every source failure path returns
`0` rather than throwing). -/
theorem c5_invalid_inputs :
    calculateDifficulty (.num 0) = 0 ∧
      calculateDifficulty .null = 0 ∧
      calculateDifficulty (.obj none none none) = 0 ∧
      calculateDifficulty (.str "invalid") = 0 ∧
      ∀ b : BlockInput, ∃ d : ℕ, calculateDifficulty b = d := by
  refine ⟨by decide, by decide, by decide, by decide, ?_⟩
  intro b
  exact ⟨calculateDifficulty b, rfl⟩

/-! ## Claim theorems: ValueFormatter -/

theorem jsToFixed_neg (x : ℚ) (f : ℕ) (hx : x < 0) :
    ∃ l : List Char, jsToFixed x f = String.mk ('-' :: l) := by
  simp only [jsToFixed]
  rw [if_pos hx]
  by_cases hbig : pow10 21 ≤ ratAbs x
  · rw [if_pos hbig]
    exact ⟨_, rfl⟩
  · rw [if_neg hbig]
    by_cases hf : f = 0
    · rw [if_pos hf]
      exact ⟨_, rfl⟩
    · rw [if_neg hf]
      exact ⟨_, rfl⟩

/-- C2 counterexample: two ValueFormatter functions do throw on inputs
outside their documented type — `truncateMiddle` applied to the (truthy)
number `5` reaches `str.substring`, which numbers do not have, and
`formatFileSize` applied to the string `"abc"` reaches `size.toFixed`, which
strings do not have; both raise a `TypeError` instead of returning a
sentinel. -/
theorem c2_counterexample :
    truncateMiddle (.num 5) 6 6 = .error .typeError ∧
      formatFileSize (.str "abc") = .error .typeError := by
  decide

/-- C2 (amended): the formatters are total and sentinel-correct on their
documented input types together with `null`/`undefined`:
`formatTimestamp`, `formatNumber`, `formatBtcAmount` and `formatTimeAgo`
never throw on any primitive input, `formatFileSize` never throws on
numeric input, and `truncateMiddle` never throws on string input; each
returns its sentinel (`"Unknown"`, resp. `""`) for `null`/`undefined`.
Totality over arbitrary non-string or non-numeric inputs fails (see the
counterexample), so the claim holds only in this restricted form. -/
theorem c2_amended_totality :
    (∀ (tz : ℤ) (v : JsPrim), ∃ s, formatTimestamp tz v = .ok s) ∧
      (∀ v : JsPrim, ∃ s, formatNumber v = .ok s) ∧
      (∀ v : JsPrim, ∃ s, formatBtcAmount v = .ok s) ∧
      (∀ (now : ℤ) (v : JsPrim), ∃ s, formatTimeAgo now v = .ok s) ∧
      (∀ q : ℚ, ∃ s, formatFileSize (.num q) = .ok s) ∧
      (∀ s : String, ∃ r, truncateMiddle (.str s) 6 6 = .ok r) ∧
      (∀ tz : ℤ, formatTimestamp tz .null = .ok "Unknown" ∧
        formatTimestamp tz .undef = .ok "Unknown") ∧
      formatNumber .null = .ok "Unknown" ∧ formatNumber .undef = .ok "Unknown" ∧
      formatFileSize .null = .ok "Unknown" ∧ formatFileSize .undef = .ok "Unknown" ∧
      formatBtcAmount .null = .ok "Unknown" ∧ formatBtcAmount .undef = .ok "Unknown" ∧
      (∀ now : ℤ, formatTimeAgo now .null = .ok "Unknown" ∧
        formatTimeAgo now .undef = .ok "Unknown") ∧
      truncateMiddle .null 6 6 = .ok "" ∧ truncateMiddle .undef 6 6 = .ok "" := by
  refine ⟨?_, ?_, ?_, ?_, ?_, ?_, ?_, ?_, ?_, ?_, ?_, ?_, ?_, ?_, ?_, ?_⟩
  · intro tz v
    cases v <;> exact ⟨_, rfl⟩
  · intro v
    cases v <;> exact ⟨_, rfl⟩
  · intro v
    cases v <;> exact ⟨_, rfl⟩
  · intro now v
    cases v <;> exact ⟨_, rfl⟩
  · intro q
    exact ⟨_, rfl⟩
  · intro s
    exact ⟨_, rfl⟩
  · intro tz
    exact ⟨rfl, rfl⟩
  · rfl
  · rfl
  · rfl
  · rfl
  · rfl
  · rfl
  · intro now
    exact ⟨rfl, rfl⟩
  · rfl
  · rfl

/-- C6 counterexample: a negative satoshi amount is not reported with the
sentinel — `formatBtcAmount(-100)` formats the negative amount as
`"-0.00000100 BTC"`. -/
theorem c6_counterexample :
    formatBtcAmount (.num (-100)) = .ok "-0.00000100 BTC" ∧
      ("-0.00000100 BTC" : String) ≠ "Unknown" ∧ ((-100 : ℚ) < 0) := by
  decide

/-- C6 (amended): `formatBtcAmount` does not throw on negative or missing
satoshi values; `null`/`undefined` give the sentinel `"Unknown"`, but a
negative amount is formatted as an ordinary (minus-signed) BTC string
rather than reported as a sentinel. -/
theorem c6_amended_negative :
    (∀ q : ℚ, q < 0 → ∃ r, formatBtcAmount (.num q) = .ok r ∧ r ≠ "Unknown") ∧
      formatBtcAmount .null = .ok "Unknown" ∧
      formatBtcAmount .undef = .ok "Unknown" := by
  refine ⟨?_, rfl, rfl⟩
  intro q hq
  have hql : q / 100000000 < 0 := div_neg_of_neg_of_pos hq (by norm_num)
  obtain ⟨l, hl⟩ := jsToFixed_neg (q / 100000000) 8 hql
  refine ⟨jsToFixed (q / 100000000) 8 ++ " BTC", rfl, ?_⟩
  rw [hl]
  intro hcontra
  have hdata : ('-' :: (l ++ " BTC".data)) = "Unknown".data := congrArg String.data hcontra
  have hh : some '-' = "Unknown".data.head? := by
    rw [← hdata]
    rfl
  exact absurd hh (by decide)

/-- C6 witness: the amended statement applied at the concrete negative
amount `-100` satoshis. -/
theorem c6_amended_negative_witness :
    ((-100 : ℚ) < 0) ∧ (∃ r, formatBtcAmount (.num (-100)) = .ok r ∧ r ≠ "Unknown") :=
  ⟨by norm_num, c6_amended_negative.1 (-100) (by norm_num)⟩

/-- A transaction carrying an explicit `fee` field *and* full input data:
inputs worth 100 satoshis, outputs worth 90. -/
def feeClaimTx : Tx :=
  ⟨some 5, false, some [⟨some ⟨some "1SenderAddr", some 100⟩, none⟩],
    some [⟨some "1RecipAddr", none, some 90⟩], none⟩

/-- C3 counterexample: with an explicit `fee: 5` and computed
`totalInput = 100`, `totalOutput = 90`, the aggregation reports fee `5`, not
`totalInput - totalOutput = 10` — the explicit field wins even though
`totalInput` is non-zero, contradicting the claimed precedence and the
claimed round-trip `fee = sum(inputs) - sum(out)`. -/
theorem c3_counterexample :
    (aggregate feeClaimTx).totalInput = 100 ∧
      (aggregate feeClaimTx).totalOutput = 90 ∧
      (aggregate feeClaimTx).fee = 5 ∧ ((5 : ℤ) ≠ 100 - 90) := by
  decide

/-- C3 (amended): the fee preference is by JS truthiness of the explicit
field, not by `totalInput`: for every transaction whose explicit
`transaction.fee` is truthy (present and non-zero) the aggregation reports
exactly that fee, regardless of `totalInput`; when the explicit fee is
absent or `0`, and `totalInput` is positive, the fee equals
`totalInput - totalOutput`, with a negative difference passed through
unchanged (never clamped). -/
theorem c3_amended_fee :
    (∀ (t : Tx) (f : ℤ), t.fee = some f → f ≠ 0 → (aggregate t).fee = f) ∧
      ∀ t : Tx, t.fee = none ∨ t.fee = some 0 → 0 < totalInputOf t →
        (aggregate t).fee = totalInputOf t - totalOutputOf t := by
  constructor
  · intro t f hf hnz
    show feeOf t = f
    unfold feeOf
    simp [hf, hnz]
  · intro t hfee hpos
    show feeOf t = _
    unfold feeOf
    rcases hfee with h | h <;> simp [h, hpos]

/-- A transaction with no explicit fee whose outputs exceed its inputs. -/
def negFeeTx : Tx :=
  ⟨none, false, some [⟨some ⟨some "1SenderAddr", some 100⟩, none⟩],
    some [⟨some "1RecipAddr", none, some 110⟩], none⟩

/-- C3 witness: both amended fee rules at concrete transactions — the
truthy explicit fee `5` of `feeClaimTx` wins although its `totalInput` is
100, and the fee-less `negFeeTx` computes the difference, passing the `-10`
through unclamped. -/
theorem c3_amended_fee_witness :
    (aggregate feeClaimTx).fee = 5 ∧ 0 < totalInputOf feeClaimTx ∧
      0 < totalInputOf negFeeTx ∧
      (aggregate negFeeTx).fee = totalInputOf negFeeTx - totalOutputOf negFeeTx ∧
      (aggregate negFeeTx).fee = -10 :=
  ⟨c3_amended_fee.1 feeClaimTx 5 rfl (by decide), by decide, by decide,
    c3_amended_fee.2 negFeeTx (Or.inl rfl) (by decide), by decide⟩

/-- C8: every transaction flagged or inferred as coinbase (explicit
`is_coinbase`, or first input with a coinbase marker or without `prev_out`)
reports `primaryFrom.addr = "Coinbase (Newly Generated Coins)"` with value
equal to the computed `totalOutput`. -/
theorem c8_coinbase_primary_from (t : Tx) (h : isCoinbaseTx t = true) :
    (aggregate t).primaryFrom.addr = "Coinbase (Newly Generated Coins)" ∧
      (aggregate t).primaryFrom.value = (aggregate t).totalOutput := by
  show (primaryFromOf t).addr = _ ∧ (primaryFromOf t).value = totalOutputOf t
  unfold primaryFromOf
  rw [if_pos h]
  exact ⟨rfl, rfl⟩

/-- The coinbase transaction of the repository test suite: `is_coinbase:
true`, a single 6250000000-satoshi output, and a coinbase-marker input. -/
def coinbaseTx : Tx :=
  ⟨none, true, some [⟨none, some "03fc350c"⟩],
    some [⟨some "bc1qxneh87v5qnkqz5zah6mwcgv4y8qgpkcm5cdlpw", none,
      some 6250000000⟩], none⟩

/-- C8 witness: the coinbase rule at the concrete scenario transaction with
a single output of 6250000000 satoshis. -/
theorem c8_coinbase_primary_from_witness :
    isCoinbaseTx coinbaseTx = true ∧
      (aggregate coinbaseTx).primaryFrom.addr = "Coinbase (Newly Generated Coins)" ∧
      (aggregate coinbaseTx).primaryFrom.value = 6250000000 :=
  ⟨by decide, (c8_coinbase_primary_from coinbaseTx (by decide)).1,
    ((c8_coinbase_primary_from coinbaseTx (by decide)).2).trans (by decide)⟩

/-! ## Claim theorems: MinerIdentifier -/

theorem scanHexPatterns_mem (l : List (String × String)) (L nm : String)
    (h : scanHexPatterns l L = some nm) : nm ∈ l.map Prod.snd := by
  induction l with
  | nil => simp [scanHexPatterns] at h
  | cons p rest ih =>
    obtain ⟨pat, pnm⟩ := p
    simp only [scanHexPatterns] at h
    by_cases hc : containsSub L.data (toLowerJs pat).data = true
    · rw [if_pos hc] at h
      injection h with h
      simp [h]
    · rw [if_neg hc] at h
      simp [ih h]

theorem scanSignatures_mem (l : List (String × List String)) (a nm : String)
    (h : scanSignatures l a = some nm) : nm ∈ l.map Prod.fst := by
  induction l with
  | nil => simp [scanSignatures] at h
  | cons p rest ih =>
    obtain ⟨pnm, sigs⟩ := p
    simp only [scanSignatures] at h
    by_cases hc : sigMatch sigs a = true
    · rw [if_pos hc] at h
      injection h with h
      simp [h]
    · rw [if_neg hc] at h
      simp [ih h]

theorem addrLookup_mem (l : List (String × String)) (a nm : String)
    (h : addrLookup l a = some nm) : nm ∈ l.map Prod.snd := by
  induction l with
  | nil => simp [addrLookup] at h
  | cons p rest ih =>
    obtain ⟨k, v⟩ := p
    simp only [addrLookup] at h
    by_cases hc : k = a
    · rw [if_pos hc] at h
      injection h with h
      simp [h]
    · rw [if_neg hc] at h
      simp [ih h]

theorem outsScan_mem (outs : List MinerOut) (nm : String)
    (h : outsScan outs = some nm) : nm ∈ minerAddresses.map Prod.snd := by
  induction outs with
  | nil => simp [outsScan] at h
  | cons o rest ih =>
    obtain ⟨oa⟩ := o
    cases oa with
    | none =>
      simp only [outsScan] at h
      exact ih h
    | some a =>
      simp only [outsScan] at h
      by_cases ha : a ≠ ""
      · rw [if_pos ha] at h
        cases hl : addrLookup minerAddresses a with
        | some nm2 =>
          rw [hl] at h
          injection h with h
          subst h
          exact addrLookup_mem _ _ _ hl
        | none =>
          rw [hl] at h
          exact ih h
      · rw [if_neg ha] at h
        exact ih h

theorem addressPass_mem (raw : Option RawBlock) (nm : String)
    (h : addressPass raw = some nm) : nm ∈ minerAddresses.map Prod.snd := by
  cases raw with
  | none => simp [addressPass] at h
  | some rb =>
    obtain ⟨tx⟩ := rb
    cases tx with
    | none => simp [addressPass] at h
    | some l =>
      cases l with
      | nil => simp [addressPass] at h
      | cons t ts =>
        obtain ⟨tout⟩ := t
        cases tout with
        | none => simp [addressPass] at h
        | some outs =>
          cases outs with
          | nil => simp [addressPass] at h
          | cons o os =>
            simp only [addressPass] at h
            exact outsScan_mem _ _ h

theorem coinbasePass_mem (cb : JsPrim) (nm : String) (h : coinbasePass cb = some nm) :
    nm ∈ minerHexPatterns.map Prod.snd ++ minerSignatures.map Prod.fst := by
  cases cb with
  | null => simp [coinbasePass] at h
  | undef => simp [coinbasePass] at h
  | num q => simp [coinbasePass] at h
  | str s =>
    simp only [coinbasePass] at h
    by_cases hs : (s == "") = true
    · rw [if_pos hs] at h
      exact absurd h (by simp)
    · rw [if_neg hs] at h
      cases hscan : scanHexPatterns minerHexPatterns (toLowerJs s) with
      | some nm2 =>
        rw [hscan] at h
        injection h with h
        subst h
        exact List.mem_append_left _ (scanHexPatterns_mem _ _ _ hscan)
      | none =>
        rw [hscan] at h
        by_cases ha : (String.mk (asciiDecode (toLowerJs s).data) == "") = true
        · rw [if_pos ha] at h
          exact absurd h (by simp)
        · rw [if_neg ha] at h
          exact List.mem_append_right _ (scanSignatures_mem _ _ _ h)

theorem genericPoolPass_cases (cb : JsPrim) :
    genericPoolPass cb = "Mining Pool" ∨ genericPoolPass cb = "Unknown Miner" := by
  cases cb with
  | null => exact Or.inr rfl
  | undef => exact Or.inr rfl
  | num q => exact Or.inr rfl
  | str s =>
    have hdef : genericPoolPass (.str s) =
        if (s != "" && containsSub (toLowerJs s).data ("706f6f6c".data)) = true
        then "Mining Pool" else "Unknown Miner" := rfl
    rw [hdef]
    by_cases hc : (s != "" && containsSub (toLowerJs s).data ("706f6f6c".data)) = true
    · rw [if_pos hc]
      exact Or.inl rfl
    · rw [if_neg hc]
      exact Or.inr rfl

/-- C9 counterexample: the hex string
`"466f756e64727920555341536c757368506f6f6c"` contains the hex pattern of
pool SlushPool (`536c757368506f6f6c`) and its decoded ASCII contains
`"foundry usa"`, an ASCII signature of a different pool (Foundry USA) — yet
`identifyMiner` returns `"Foundry USA"`, not SlushPool: the bytes of the
ASCII signature are themselves the earlier hex-pattern entry
`466f756e647279`, so the hex pass resolves to Foundry first.  The claim as
universally stated is therefore self-contradictory on such inputs. -/
theorem c9_counterexample :
    containsSub "466f756e64727920555341536c757368506f6f6c".data
        "536c757368506f6f6c".data = true ∧
      containsSub
        (toLowerJs (String.mk (asciiDecode
          (toLowerJs "466f756e64727920555341536c757368506f6f6c").data))).data
        "foundry usa".data = true ∧
      identifyMiner (.str "466f756e64727920555341536c757368506f6f6c") none =
        "Foundry USA" ∧
      ("Foundry USA" : String) ≠ "SlushPool" := by
  decide

/-- C9 (amended): the raw-hex pass strictly precedes the decoded-ASCII pass
— whenever the hex-pattern scan over the static list finds a match for a
(truthy) coinbase string, `identifyMiner` returns that pool name and the
ASCII pass never runs, regardless of any ASCII signature present; and within
the hex pass the earliest matching entry of the static list determines the
returned name.  A string containing a hex pattern of pool A and an ASCII
signature of a different pool B therefore yields A exactly when A is the
earliest-matching hex entry (not unconditionally, as previously stated). -/
theorem c9_amended_precedence :
    (∀ (s nm : String) (raw : Option RawBlock), s ≠ "" →
        scanHexPatterns minerHexPatterns (toLowerJs s) = some nm →
        identifyMiner (.str s) raw = nm) ∧
      (∀ (l1 l2 : List (String × String)) (pat nm L : String),
        (∀ p ∈ l1, containsSub L.data (toLowerJs p.1).data = false) →
        containsSub L.data (toLowerJs pat).data = true →
        scanHexPatterns (l1 ++ (pat, nm) :: l2) L = some nm) := by
  constructor
  · intro s nm raw hs hscan
    have hcp : coinbasePass (.str s) = some nm := by
      simp only [coinbasePass]
      have hbeq : (s == "") = false := by
        simp [hs]
      rw [hbeq]
      simp only [Bool.false_eq_true, if_false]
      rw [hscan]
    unfold identifyMiner
    have hfalsy : jsFalsy (.str s) = false := by
      simp [jsFalsy, hs]
    rw [hfalsy]
    simp only [Bool.false_and, Bool.false_eq_true, if_false]
    rw [hcp]
  · intro l1
    induction l1 with
    | nil =>
      intro l2 pat nm L _ hpat
      simp only [List.nil_append, scanHexPatterns]
      rw [if_pos hpat]
    | cons p l1 ih =>
      intro l2 pat nm L hnone hpat
      obtain ⟨p1, p2⟩ := p
      have hp : containsSub L.data (toLowerJs p1).data = false :=
        hnone (p1, p2) (by simp)
      simp only [List.cons_append, scanHexPatterns]
      rw [hp]
      simp only [Bool.false_eq_true, if_false]
      exact ih l2 pat nm L (fun x hx => hnone x (by simp [hx])) hpat

/-- C9 witness: the precedence rule at the concrete coinbase hex
`"5669614254432f2f466f00756e6472792f"` (the ViaBTC hex pattern followed by
`/Foundry/` with a NUL byte splitting its hex): the hex pass matches only
ViaBTC (the four earlier list entries do not match), the decoded ASCII
contains the Foundry signature `"/foundry/"`, and `identifyMiner` returns
`"ViaBTC"`. -/
theorem c9_amended_precedence_witness :
    identifyMiner (.str "5669614254432f2f466f00756e6472792f") none = "ViaBTC" ∧
      scanHexPatterns
        ([("466f756e647279", "Foundry USA"), ("4632506f6f6c", "F2Pool"),
          ("416e74506f6f6c", "AntPool"), ("42696e616e6365", "Binance Pool")] ++
          ("5669614254432f", "ViaBTC") ::
            [("536c757368506f6f6c", "SlushPool"), ("506f6f6c696e", "Poolin"),
             ("2f4254432e636f6d2f", "BTC.com"), ("2f426974446565722f", "Bitdeer"),
             ("2f4c75786f722f", "Luxor"), ("2f42544343454e5452414c2f", "BTCC"),
             ("6d6172617468", "MARA Pool"), ("4b75636f696e", "KuCoin Pool"),
             ("7370696465", "SpiderPool"), ("2f466f756e6472792f", "Foundry USA"),
             ("2f4632506f6f6c2f", "F2Pool"), ("2f416e74506f6f6c2f", "AntPool"),
             ("2f42696e616e63652f", "Binance Pool")])
        (toLowerJs "5669614254432f2f466f00756e6472792f") = some "ViaBTC" ∧
      containsSub
        (toLowerJs (String.mk (asciiDecode
          (toLowerJs "5669614254432f2f466f00756e6472792f").data))).data
        "/foundry/".data = true :=
  ⟨c9_amended_precedence.1 "5669614254432f2f466f00756e6472792f" "ViaBTC" none
      (by decide) (by decide),
    c9_amended_precedence.2
      [("466f756e647279", "Foundry USA"), ("4632506f6f6c", "F2Pool"),
        ("416e74506f6f6c", "AntPool"), ("42696e616e6365", "Binance Pool")]
      [("536c757368506f6f6c", "SlushPool"), ("506f6f6c696e", "Poolin"),
        ("2f4254432e636f6d2f", "BTC.com"), ("2f426974446565722f", "Bitdeer"),
        ("2f4c75786f722f", "Luxor"), ("2f42544343454e5452414c2f", "BTCC"),
        ("6d6172617468", "MARA Pool"), ("4b75636f696e", "KuCoin Pool"),
        ("7370696465", "SpiderPool"), ("2f466f756e6472792f", "Foundry USA"),
        ("2f4632506f6f6c2f", "F2Pool"), ("2f416e74506f6f6c2f", "AntPool"),
        ("2f42696e616e63652f", "Binance Pool")]
      "5669614254432f" "ViaBTC" (toLowerJs "5669614254432f2f466f00756e6472792f")
      (by decide) (by decide),
    by decide⟩

/-- C10: on every input pair — any primitive `coinbaseData` value and any
raw block value — `identifyMiner` returns a string from the fixed finite set
consisting of the pool names of its static hex-pattern, signature and
address tables together with `"Mining Pool"` and `"Unknown Miner"`; it never
returns input-derived text such as a decoded coinbase string or a payout
address. -/
theorem c10_output_closed_set (cb : JsPrim) (raw : Option RawBlock) :
    identifyMiner cb raw ∈ allowedMinerNames := by
  unfold identifyMiner
  by_cases h0 : (jsFalsy cb && raw.isNone) = true
  · rw [if_pos h0]
    simp [allowedMinerNames]
  · rw [if_neg h0]
    cases hcb : coinbasePass cb with
    | some nm =>
      have hmem := coinbasePass_mem cb nm hcb
      unfold allowedMinerNames
      simp only [List.mem_append] at hmem ⊢
      tauto
    | none =>
      cases hap : addressPass raw with
      | some nm =>
        have hmem := addressPass_mem raw nm hap
        unfold allowedMinerNames
        simp only [List.mem_append] at hmem ⊢
        tauto
      | none =>
        rcases genericPoolPass_cases cb with hg | hg <;>
          · rw [hg]
            simp [allowedMinerNames]
